import Mathlib

/-!
Shallow embedding of the retrieval/scoring core of the multi-method FAQ
chatbot (src/utils.py, src/chat.py, src/evaluate.py).

Text is modelled as a list of Unicode code points (`List Nat`), exactly the
Python string model.  Python floats are modelled as real numbers; the
`float("-inf")` sentinel used by the matcher and the evaluator is modelled
with `WithBot ℝ` (`⊥` standing for `-inf`).  Python `Counter` objects are
modelled by the underlying token list together with `List.count`.
-/

namespace Faq

/-- A piece of text: the list of Unicode code points of a Python `str`. -/
abbrev Text := List Nat

/-- A token produced by tokenization; also a sequence of code points. -/
abbrev Token := List Nat

/-- Code points of a Lean string literal, used to write concrete texts. -/
def str (s : String) : Text := s.data.map Char.toNat

/-- Python `str.lower()` restricted to the alphabet the tokenizer can ever
keep: ASCII `A`-`Z` and Cyrillic `А`-`Я`/`Ё` are mapped to their lowercase
forms, everything else is unchanged (as in `utils.py`, only Latin, Cyrillic
and digits survive tokenization, so this is the relevant fragment of
`lower`). -/
def pyLower (n : Nat) : Nat :=
  if 65 ≤ n ∧ n ≤ 90 then n + 32
  else if 0x410 ≤ n ∧ n ≤ 0x42F then n + 32
  else if n = 0x401 then 0x451
  else n

/-- Membership in the regex class `[a-zA-Zа-яА-ЯёЁ0-9]` of `utils.tokenize`. -/
def IsWordChar (n : Nat) : Prop :=
  (97 ≤ n ∧ n ≤ 122) ∨ (65 ≤ n ∧ n ≤ 90) ∨ (48 ≤ n ∧ n ≤ 57) ∨
    (0x430 ≤ n ∧ n ≤ 0x44F) ∨ (0x410 ≤ n ∧ n ≤ 0x42F) ∨ n = 0x451 ∨ n = 0x401

instance (n : Nat) : Decidable (IsWordChar n) := by
  unfold IsWordChar; infer_instance

/-- Membership in the regex class `[а-яё]` of `utils.contains_cyrillic`. -/
def IsCyr (n : Nat) : Prop := (0x430 ≤ n ∧ n ≤ 0x44F) ∨ n = 0x451

instance (n : Nat) : Decidable (IsCyr n) := by
  unfold IsCyr; infer_instance

/-- `utils.contains_cyrillic`: search for `[а-яё]` in `text.lower()`. -/
def contains_cyrillic (s : Text) : Bool :=
  (s.map pyLower).any (fun c => decide (IsCyr c))

/-- Maximal runs of characters satisfying `p`; `cur` is the run being
accumulated.  `re.findall` of a character-class regex (and `str.split`)
return exactly these runs. -/
def runsBy (p : Nat → Prop) [DecidablePred p] : List Nat → List Nat → List (List Nat)
  | [], cur => if cur = [] then [] else [cur]
  | c :: rest, cur =>
    if p c then runsBy p rest (cur ++ [c])
    else (if cur = [] then [] else [cur]) ++ runsBy p rest []

/-- `utils.tokenize`: lowercase, then extract runs of `[a-zA-Zа-яА-ЯёЁ0-9]`. -/
def tokenize (s : Text) : List Token :=
  runsBy IsWordChar (s.map pyLower) []

/-- Python whitespace characters recognized by `str.split()`. -/
def IsSpaceChar (n : Nat) : Prop := n = 32 ∨ n = 9 ∨ n = 10 ∨ n = 11 ∨ n = 12 ∨ n = 13

instance (n : Nat) : Decidable (IsSpaceChar n) := by
  unfold IsSpaceChar; infer_instance

/-- Python `str.split()` with no arguments: runs of non-whitespace. -/
def pySplit (s : Text) : List Token :=
  runsBy (fun c => ¬ IsSpaceChar c) s []

/-- Python `" ".join(tokens)`. -/
def joinSpace : List Token → Text
  | [] => []
  | [t] => t
  | t :: t' :: ts => t ++ 32 :: joinSpace (t' :: ts)

/-- `utils.EN_STOPWORDS`. -/
def EN_STOPWORDS : List Token :=
  ["a", "an", "the", "is", "are", "am", "was", "were", "to", "for", "of",
    "and", "or", "in", "on", "at", "how", "what"].map str

/-- `utils.RU_STOPWORDS`. -/
def RU_STOPWORDS : List Token :=
  ["и", "в", "на", "с", "по", "о", "что", "как", "это", "для", "к", "из"].map str

/-- `utils.normalize_text`: tokenize, strip the stopword set selected by
Cyrillic detection on the raw input, join with single spaces. -/
def normalize_text (s : Text) : Text :=
  let tokens := tokenize s
  if tokens = [] then []
  else
    let cleaned :=
      if contains_cyrillic s then tokens.filter (fun t => decide (t ∉ RU_STOPWORDS))
      else tokens.filter (fun t => decide (t ∉ EN_STOPWORDS))
    joinSpace cleaned

/-- `utils.score_boolean`: per-document overlap ratio
`|set(query) ∩ set(doc)| / |set(query)|`; all zeros for an empty query.
Python `set`s are modelled with `List.toFinset`. -/
noncomputable def score_boolean (query_tokens : List Token)
    (doc_tokens : List (List Token)) : List ℝ :=
  if query_tokens = [] then doc_tokens.map (fun _ => 0)
  else
    doc_tokens.map (fun doc =>
      ((query_tokens.toFinset ∩ doc.toFinset).card : ℝ) / (query_tokens.toFinset.card : ℝ))

/-- Document frequency: number of documents containing `t` at least once
(`doc_freq` in `utils.build_bm25_index`, built by updating a counter with
each document's distinct keys). -/
def dfCount (doc_tokens : List (List Token)) (t : Token) : Nat :=
  (doc_tokens.filter (fun d => decide (t ∈ d))).length

/-- The BM25 artifact of `utils.build_bm25_index`.  A Python `Counter` of a
document is modelled by the document's token list itself (`term in counter`
is list membership, `counter[term]` is `List.count`); the `idf` dict with
its `.get(term, 0.0)` read is modelled as a total function that is `0`
outside the dict's keys. -/
structure BM25Index where
  idf : Token → ℝ
  doc_term_freqs : List (List Token)
  doc_lengths : List Nat
  avg_doc_length : ℝ
  k1 : ℝ
  b : ℝ

/-- `utils.build_bm25_index`. -/
noncomputable def build_bm25_index (doc_tokens : List (List Token)) : BM25Index :=
  if doc_tokens.length = 0 then
    { idf := fun _ => 0, doc_term_freqs := [], doc_lengths := [],
      avg_doc_length := 0, k1 := 1.5, b := 0.75 }
  else
    { idf := fun t =>
        if dfCount doc_tokens t = 0 then 0
        else Real.log (1 + ((doc_tokens.length : ℝ) - (dfCount doc_tokens t : ℝ) + 0.5) /
          ((dfCount doc_tokens t : ℝ) + 0.5)),
      doc_term_freqs := doc_tokens,
      doc_lengths := doc_tokens.map List.length,
      avg_doc_length := ((doc_tokens.map List.length).sum : ℝ) / (doc_tokens.length : ℝ),
      k1 := 1.5, b := 0.75 }

/-- `utils.score_bm25`.  The iteration over `Counter(query_tokens).items()`
is modelled as a fold over the distinct query terms (`query_tokens.dedup`)
with `qf = query_tokens.count term`; real addition makes the iteration
order immaterial. -/
noncomputable def score_bm25 (query_tokens : List Token) (idx : BM25Index) : List ℝ :=
  if query_tokens = [] then idx.doc_term_freqs.map (fun _ => 0)
  else if idx.avg_doc_length = 0 then idx.doc_term_freqs.map (fun _ => 0)
  else
    (idx.doc_term_freqs.zip idx.doc_lengths).map (fun td =>
      query_tokens.dedup.foldl (fun score t =>
        if t ∈ td.1 then
          score + idx.idf t * (((td.1.count t : ℝ) * (idx.k1 + 1)) /
            ((td.1.count t : ℝ) + idx.k1 * (1 - idx.b + idx.b * ((td.2 : ℝ) / idx.avg_doc_length))))
            * (query_tokens.count t : ℝ)
        else score) 0)

/-- One stored question pattern (`examples` entries built by
`utils.prepare_corpus` / `utils.prepare_corpus_from_csv_rows`); absent dict
keys read through `.get` are modelled by the defaults below. -/
structure Example where
  tag : Text
  pattern : Text
  responses : List Text
  source_url : Text
deriving DecidableEq

instance : Inhabited Example := ⟨⟨str "general", [], [], []⟩⟩

/-- One entry of the `intents` list of the intents JSON. -/
structure Intent where
  tag : Text
  patterns : List Text
  responses : List Text

/-- `utils.prepare_corpus`: append each pattern's normalization to the
corpus and its metadata to the examples, skipping patterns whose
normalization is empty. -/
def prepare_corpus (intents : List Intent) : List Text × List Example :=
  intents.foldl (fun acc intent =>
    intent.patterns.foldl (fun acc pattern =>
      let normalized := normalize_text pattern
      if normalized = [] then acc
      else (acc.1 ++ [normalized],
            acc.2 ++ [{ tag := intent.tag, pattern := pattern,
                        responses := intent.responses, source_url := [] }])) acc)
    ([], [])

/-- The method-specific scoring structures stored in the index payload
(`matrix`/`vectorizer` for tfidf/bow, `bm25_index` for bm25, `doc_tokens`
for boolean); the `method` string of the payload is the tag of this
variant.  The vectorizer is the external sklearn collaborator: an opaque
function from the normalized query text to a query vector. -/
inductive MethodData where
  | vector (vectorizer : Text → List ℝ) (matrix : List (List ℝ))
  | bm25 (idx : BM25Index)
  | boolean (docTokens : List (List Token))

/-- The loaded index payload (`chat.load_index` result): aligned examples,
an optional `threshold` entry, and the method-specific structures. -/
structure IndexPayload where
  examples : List Example
  threshold : Option ℝ
  data : MethodData

/-- The structures of a `MethodData` hold exactly `n` rows: the shape
`train.py` always stores (one matrix row / BM25 entry / token list per
example). -/
def DataAligned : MethodData → Nat → Prop
  | .vector _ matrix, n => matrix.length = n
  | .bm25 idx, n => idx.doc_term_freqs.length = n ∧ idx.doc_lengths.length = n
  | .boolean docTokens, n => docTokens.length = n

instance : ∀ (d : MethodData) (n : Nat), Decidable (DataAligned d n)
  | .vector _ _, _ => by unfold DataAligned; infer_instance
  | .bm25 _, _ => by unfold DataAligned; infer_instance
  | .boolean _, _ => by unfold DataAligned; infer_instance

/-- Dot product of two vectors (used by the model of the external
`cosine_similarity` primitive). -/
def dotP (u v : List ℝ) : ℝ := (u.zipWith (· * ·) v).sum

/-- Model of `sklearn.metrics.pairwise.cosine_similarity(query, matrix)`
followed by `.ravel().tolist()`: one similarity per matrix row. -/
noncomputable def cosine_similarity (q : List ℝ) (matrix : List (List ℝ)) : List ℝ :=
  matrix.map (fun row => dotP q row / (Real.sqrt (dotP q q) * Real.sqrt (dotP row row)))

/-- `chat.compute_scores`: dispatch on the payload's method. -/
noncomputable def compute_scores (normalized_query : Text) (p : IndexPayload) : List ℝ :=
  match p.data with
  | .vector vectorizer matrix => cosine_similarity (vectorizer normalized_query) matrix
  | .bm25 idx => score_bm25 (pySplit normalized_query) idx
  | .boolean docTokens => score_boolean (pySplit normalized_query) docTokens

/-- Python `str.strip()`: drop leading and trailing whitespace. -/
def pyStrip (s : Text) : Text :=
  ((s.dropWhile (fun c => decide (IsSpaceChar c))).reverse.dropWhile
    (fun c => decide (IsSpaceChar c))).reverse

/-- `chat.normalized_topic`: `tag.strip().lower()`, drop a leading
`"web_"`, replace spaces with underscores. -/
def normalized_topic (tag : Text) : Text :=
  let cleaned := (pyStrip tag).map pyLower
  let cleaned := if (str "web_").isPrefixOf cleaned then cleaned.drop 4 else cleaned
  cleaned.map (fun c => if c = 32 then 95 else c)

/-- `chat.FALLBACK_MESSAGE`. -/
def FALLBACK_MESSAGE : Text :=
  str "I am not sure about that yet. Please rephrase your question."

/-- The topic-filter pass of `chat.get_answer_with_source` (lines 187-190):
overwrite the score of every example whose normalized topic differs from
the filter with `-inf` (`⊥`), embedding the remaining floats. -/
def maskScores (examples : List Example) (scores : List ℝ) (topic_filter : Text) :
    List (WithBot ℝ) :=
  scores.mapIdx (fun idx (x : ℝ) =>
    if normalized_topic (examples.getD idx default).tag ≠ topic_filter then (⊥ : WithBot ℝ)
    else (x : WithBot ℝ))

/-- The score vector `get_answer_with_source` ranks over: raw scores when
the filter is the sentinel `"all"`, masked scores otherwise. -/
noncomputable def filteredScores (user_text : Text) (p : IndexPayload)
    (topic_filter : Text) : List (WithBot ℝ) :=
  let scores := compute_scores (normalize_text user_text) p
  if topic_filter = str "all" then scores.map (fun x : ℝ => (x : WithBot ℝ))
  else maskScores p.examples scores topic_filter

/-- Python `max(scores)` on a list that is ranked only when non-empty
(`⊥` is the identity of `max` on `WithBot ℝ`). -/
noncomputable def maxOf (l : List (WithBot ℝ)) : WithBot ℝ := l.foldr max ⊥

/-- Python `max(range(len(scores)), key=lambda idx: scores[idx])`:
scan the indices in order, replacing the current best only on a strictly
greater score, so the first occurrence of the maximum wins. -/
noncomputable def argmaxGo (s : List (WithBot ℝ)) : List Nat → Nat → Nat
  | [], best => best
  | i :: is, best => argmaxGo s is (if s.getD best ⊥ < s.getD i ⊥ then i else best)

/-- First index of the maximum of `s` (the argmax selection shared by
`chat.get_answer_with_source` and `evaluate.evaluate_method`). -/
noncomputable def argmax (s : List (WithBot ℝ)) : Nat := argmaxGo s (List.range s.length) 0

/-- Which `return` of `chat.get_answer_with_source` fires: the three
fallback returns (empty normalized query at line 181, empty/all-filtered
scores at line 193, best score below threshold at line 200) or the match
at line 205. -/
inductive MatchDecision where
  | emptyQuery
  | noScores
  | belowThreshold (best : WithBot ℝ)
  | matched (idx : Nat) (best : WithBot ℝ)

/-- `payload.get("threshold", 0.25)` as read by both `chat` and `evaluate`. -/
def thresholdOf (p : IndexPayload) : ℝ := p.threshold.getD 0.25

open scoped Classical in
/-- The decision sequence of `chat.get_answer_with_source` (lines 179-205),
separated from the final tuple assembly. -/
noncomputable def decide_answer (user_text : Text) (p : IndexPayload)
    (topic_filter : Text) : MatchDecision :=
  if normalize_text user_text = [] then .emptyQuery
  else
    let fscores := filteredScores user_text p topic_filter
    if fscores = [] ∨ maxOf fscores = ⊥ then .noScores
    else
      let best_idx := argmax fscores
      let best_score := fscores.getD best_idx ⊥
      if best_score < (thresholdOf p : WithBot ℝ) then .belowThreshold best_score
      else .matched best_idx best_score

/-- `chat.get_answer_with_source`.  `random.choice` over a non-empty
response list is the injectable choice function `pick`; the score slot of
the returned triple is a `WithBot ℝ` because the Python float there can be
`-inf` only through the masked vector, which the guards rule out. -/
noncomputable def get_answer_with_source (pick : List Text → Text) (user_text : Text)
    (p : IndexPayload) (topic_filter : Text) : Text × WithBot ℝ × Text :=
  match decide_answer user_text p topic_filter with
  | .emptyQuery => (FALLBACK_MESSAGE, (0 : ℝ), [])
  | .noScores => (FALLBACK_MESSAGE, (0 : ℝ), [])
  | .belowThreshold best => (FALLBACK_MESSAGE, best, [])
  | .matched idx best =>
      let ex := p.examples.getD idx default
      ((if ex.responses = [] then FALLBACK_MESSAGE else pick ex.responses),
        best, ex.source_url)

/-- Metrics accumulated by `evaluate.evaluate_method` (the `EvalResult`
dataclass without the method name). -/
structure EvalResult where
  total : Nat
  correct : Nat
  fallbacks : Nat
deriving DecidableEq

open scoped Classical in
/-- One iteration of the loop of `evaluate.evaluate_method` (lines 46-69)
over `(query_idx, example)`, threading `(total, correct, fallbacks)`. -/
noncomputable def evalStep (p : IndexPayload) (acc : Nat × Nat × Nat)
    (ie : Nat × Example) : Nat × Nat × Nat :=
  let normalized := normalize_text ie.2.pattern
  if normalized = [] then acc
  else
    let scores := compute_scores normalized p
    if scores = [] then acc
    else
      let masked := (scores.map (fun x : ℝ => (x : WithBot ℝ))).set ie.1 ⊥
      let best_idx := argmax masked
      let best_score := masked.getD best_idx ⊥
      if best_score < (thresholdOf p : WithBot ℝ) then
        (acc.1 + 1, acc.2.1, acc.2.2 + 1)
      else if (p.examples.getD best_idx default).tag = ie.2.tag then
        (acc.1 + 1, acc.2.1 + 1, acc.2.2)
      else (acc.1 + 1, acc.2.1, acc.2.2)

/-- `evaluate.evaluate_method`, abstracted over the already-loaded payload
(`load_index` is file I/O outside the core). -/
noncomputable def evaluate_method (p : IndexPayload) : EvalResult :=
  let r := p.examples.enum.foldl (evalStep p) (0, 0, 0)
  { total := r.1, correct := r.2.1, fallbacks := r.2.2 }

/-! ### Concrete inputs used by witness theorems -/

/-- Tied scores used to witness the tie-break theorem. -/
noncomputable def tieScores : List (WithBot ℝ) := [((1 : ℝ) : WithBot ℝ), ((1 : ℝ) : WithBot ℝ)]

/-- Corpus with the term `"x"` common to all three documents, used to
witness the idf sign theorem. -/
def c3docs : List (List Token) := [[str "x"], [str "x"], [str "x", str "y"]]

/-- Corpus used to witness the BM25 formula theorem. -/
def c1docs : List (List Token) := [[str "reset", str "password"], [str "weather"]]

/-- Query used to witness the BM25 formula theorem. -/
def c1query : List Token := [str "reset", str "password", str "password"]

/-- Query and corpus used to witness the boolean scoring theorem. -/
def c7query : List Token := [str "reset", str "password"]

/-- Corpus used to witness the boolean scoring theorem. -/
def c7docs : List (List Token) := [[str "reset", str "my", str "password"], [str "weather"]]

/-- All `(tag, pattern, responses)` rows of an intents file, in order. -/
def intentRows (intents : List Intent) : List (Text × Text × List Text) :=
  (intents.map (fun it => it.patterns.map (fun pat => (it.tag, pat, it.responses)))).flatten

/-- The corpus entries `prepare_corpus` produces for one intent. -/
def rowCorpus (rows : List (Text × Text × List Text)) : List Text :=
  (rows.map (fun r => normalize_text r.2.1)).filter (fun t => !t.isEmpty)

/-- The example entries `prepare_corpus` produces for one intent. -/
def rowExamples (rows : List (Text × Text × List Text)) : List Example :=
  (rows.filter (fun r => !(normalize_text r.2.1).isEmpty)).map
    (fun r => { tag := r.1, pattern := r.2.1, responses := r.2.2, source_url := [] })

/-- Payload with one boolean token list per example, used to witness the
alignment theorem. -/
def c5payload : IndexPayload :=
  { examples :=
      [{ tag := str "greet", pattern := str "hello there", responses := [str "Hi!"],
         source_url := [] },
       { tag := str "bye", pattern := str "goodbye", responses := [str "Bye!"],
         source_url := [] }],
    threshold := none,
    data := .boolean [[str "hello", str "there"], [str "goodbye"]] }

/-- Payload used to witness the topic-filter theorem. -/
def c6payload : IndexPayload :=
  { examples :=
      [{ tag := str "web_billing", pattern := str "pay invoice",
         responses := [str "Use the portal."], source_url := str "https://e.co/b" },
       { tag := str "account", pattern := str "reset password",
         responses := [str "Open settings."], source_url := [] }],
    threshold := none,
    data := .boolean [[str "pay", str "invoice"], [str "reset", str "password"]] }

/-- Payload used to witness the threshold-fallback theorem. -/
def c8payload : IndexPayload :=
  { examples :=
      [{ tag := str "pets", pattern := str "cat dog",
         responses := [str "Meow."], source_url := [] }],
    threshold := some 1,
    data := .boolean [[str "cat", str "dog"]] }

/-- The single stored example of the payload witnessing the evaluation
theorem. -/
def c9example : Example :=
  { tag := str "pets", pattern := str "brown fox",
    responses := [str "Woof."], source_url := [] }

/-- Payload used to witness the leave-one-out evaluation theorem. -/
def c9payload : IndexPayload :=
  { examples := [c9example],
    threshold := none,
    data := .boolean [[str "brown", str "fox"]] }

/-! ### Tokenizer lemmas -/

theorem pyLower_pyLower (n : Nat) : pyLower (pyLower n) = pyLower n := by
  unfold pyLower
  split_ifs <;> omega

theorem map_eq_self_of_mem {f : Nat → Nat} {l : List Nat} (h : ∀ c ∈ l, f c = c) :
    l.map f = l := by
  induction l with
  | nil => rfl
  | cons c cs ih =>
      simp only [List.map_cons, List.cons.injEq]
      exact ⟨h c (List.mem_cons_self c cs), ih fun x hx => h x (List.mem_cons_of_mem c hx)⟩

theorem runsBy_nil {p : Nat → Prop} [DecidablePred p] (cur : List Nat) :
    runsBy p [] cur = if cur = [] then [] else [cur] := rfl

theorem runsBy_cons_pos {p : Nat → Prop} [DecidablePred p] {c : Nat}
    (hc : p c) (l cur : List Nat) :
    runsBy p (c :: l) cur = runsBy p l (cur ++ [c]) := by
  have h0 : runsBy p (c :: l) cur =
      if p c then runsBy p l (cur ++ [c])
      else (if cur = [] then [] else [cur]) ++ runsBy p l [] := rfl
  rw [h0, if_pos hc]

theorem runsBy_cons_neg {p : Nat → Prop} [DecidablePred p] {c : Nat}
    (hc : ¬ p c) (l cur : List Nat) :
    runsBy p (c :: l) cur = (if cur = [] then [] else [cur]) ++ runsBy p l [] := by
  have h0 : runsBy p (c :: l) cur =
      if p c then runsBy p l (cur ++ [c])
      else (if cur = [] then [] else [cur]) ++ runsBy p l [] := rfl
  rw [h0, if_neg hc]

theorem runsBy_append {p : Nat → Prop} [DecidablePred p] (rest : List Nat) :
    ∀ (t cur : List Nat), (∀ c ∈ t, p c) →
      runsBy p (t ++ rest) cur = runsBy p rest (cur ++ t) := by
  intro t
  induction t with
  | nil => intro cur _; simp
  | cons c t' ih =>
      intro cur ht
      have hc : p c := ht c (List.mem_cons_self c t')
      rw [List.cons_append, runsBy_cons_pos hc,
        ih (cur ++ [c]) (fun x hx => ht x (List.mem_cons_of_mem c hx))]
      exact congrArg (runsBy p rest) (by simp)

theorem runsBy_wf {p P : Nat → Prop} [DecidablePred p] (l : List Nat) :
    ∀ cur : List Nat, (∀ c ∈ cur, P c) → (∀ c ∈ l, p c → P c) →
      ∀ t ∈ runsBy p l cur, t ≠ [] ∧ ∀ c ∈ t, P c := by
  induction l with
  | nil =>
      intro cur hcur _ t ht
      rw [runsBy_nil] at ht
      by_cases h0 : cur = []
      · rw [if_pos h0] at ht; exact absurd ht (List.not_mem_nil t)
      · rw [if_neg h0] at ht
        rcases List.mem_singleton.mp ht with rfl
        exact ⟨h0, hcur⟩
  | cons c rest ih =>
      intro cur hcur hl t ht
      by_cases hc : p c
      · rw [runsBy_cons_pos hc] at ht
        refine ih (cur ++ [c]) ?_ ?_ t ht
        · intro x hx
          rcases List.mem_append.mp hx with hx | hx
          · exact hcur x hx
          · rw [List.mem_singleton.mp hx]
            exact hl c (List.mem_cons_self c rest) hc
        · exact fun x hx hp => hl x (List.mem_cons_of_mem c hx) hp
      · rw [runsBy_cons_neg hc] at ht
        rcases List.mem_append.mp ht with ht | ht
        · by_cases h0 : cur = []
          · rw [if_pos h0] at ht; exact absurd ht (List.not_mem_nil t)
          · rw [if_neg h0] at ht
            rcases List.mem_singleton.mp ht with rfl
            exact ⟨h0, hcur⟩
        · refine ih [] ?_ ?_ t ht
          · intro x hx; exact absurd hx (List.not_mem_nil x)
          · exact fun x hx hp => hl x (List.mem_cons_of_mem c hx) hp

theorem runsBy_joinSpace {p : Nat → Prop} [DecidablePred p] (hsp : ¬ p 32) :
    ∀ ts : List Token, (∀ t ∈ ts, t ≠ [] ∧ ∀ c ∈ t, p c) →
      runsBy p (joinSpace ts) [] = ts
  | [], _ => rfl
  | [t], h => by
      obtain ⟨hne, hall⟩ := h t (List.mem_singleton.mpr rfl)
      have h2 := runsBy_append [] t [] hall
      rw [List.append_nil, List.nil_append] at h2
      rw [joinSpace, h2, runsBy_nil, if_neg hne]
  | t :: t' :: ts, h => by
      obtain ⟨hne, hall⟩ := h t (List.mem_cons_self t (t' :: ts))
      have hrest : ∀ x ∈ t' :: ts, x ≠ [] ∧ ∀ c ∈ x, p c :=
        fun x hx => h x (List.mem_cons_of_mem t hx)
      have h1 := runsBy_append (32 :: joinSpace (t' :: ts)) t [] hall
      rw [List.nil_append] at h1
      rw [joinSpace, h1, runsBy_cons_neg hsp, if_neg hne,
        runsBy_joinSpace hsp (t' :: ts) hrest, List.singleton_append]

theorem mem_joinSpace {c : Nat} :
    ∀ {ts : List Token}, c ∈ joinSpace ts → (∃ t ∈ ts, c ∈ t) ∨ c = 32
  | [], h => absurd h (List.not_mem_nil c)
  | [t], h => Or.inl ⟨t, List.mem_singleton.mpr rfl, h⟩
  | t :: t' :: ts, h => by
      rw [joinSpace] at h
      rcases List.mem_append.mp h with h | h
      · exact Or.inl ⟨t, List.mem_cons_self t (t' :: ts), h⟩
      · rcases List.mem_cons.mp h with rfl | h
        · exact Or.inr rfl
        · rcases mem_joinSpace h with ⟨u, hu, hcu⟩ | h
          · exact Or.inl ⟨u, List.mem_cons_of_mem t hu, hcu⟩
          · exact Or.inr h

/-- Every token of `tokenize s` is non-empty and consists of word
characters fixed by `pyLower`. -/
theorem tokenize_wf (s : Text) :
    ∀ t ∈ tokenize s, t ≠ [] ∧ ∀ c ∈ t, IsWordChar c ∧ pyLower c = c := by
  refine runsBy_wf (s.map pyLower) [] ?_ ?_
  · intro x hx; exact absurd hx (List.not_mem_nil x)
  · intro c hc hw
    refine ⟨hw, ?_⟩
    rcases List.mem_map.mp hc with ⟨d, _, rfl⟩
    exact pyLower_pyLower d

/-- Re-tokenizing a space-join of well-formed tokens recovers the tokens. -/
theorem tokenize_joinSpace (ts : List Token)
    (h : ∀ t ∈ ts, t ≠ [] ∧ ∀ c ∈ t, IsWordChar c ∧ pyLower c = c) :
    tokenize (joinSpace ts) = ts := by
  have hmap : (joinSpace ts).map pyLower = joinSpace ts := by
    apply map_eq_self_of_mem
    intro c hc
    rcases mem_joinSpace hc with ⟨t, ht, hct⟩ | rfl
    · exact ((h t ht).2 c hct).2
    · decide
  unfold tokenize
  rw [hmap]
  exact runsBy_joinSpace (by decide) ts
    (fun t ht => ⟨(h t ht).1, fun c hc => ((h t ht).2 c hc).1⟩)

/-- `normalize_text` on a tokenizable input filters the tokens through the
stopword set selected by Cyrillic detection and joins with spaces. -/
theorem normalize_text_eq (x : Text) (hts : tokenize x ≠ []) :
    normalize_text x = joinSpace ((tokenize x).filter (fun t =>
      decide (t ∉ (if contains_cyrillic x then RU_STOPWORDS else EN_STOPWORDS)))) := by
  simp only [normalize_text, if_neg hts]
  cases hcy : contains_cyrillic x <;> simp [hcy]

/-- C2 (counterexample): the claim fails as stated.  The raw text
`"и the"` contains Cyrillic, so the first pass removes only the Russian
stopword `"и"` and keeps the English stopword `"the"`; its output `"the"`
contains no Cyrillic, so the second pass removes `"the"`, and
`normalize_text (normalize_text x) ≠ normalize_text x`. -/
theorem claim2_normalize_idempotent_counterexample :
    normalize_text (normalize_text (str "и the")) ≠ normalize_text (str "и the") := by
  decide

/-- C2 (amended): `normalize_text` is idempotent whenever language
detection agrees on the raw input and on its normalized output (in
particular for every input without Cyrillic letters); per-call detection
can otherwise switch stopword sets between the two passes. -/
theorem claim2_normalize_idempotent_amended (x : Text)
    (h : contains_cyrillic (normalize_text x) = contains_cyrillic x) :
    normalize_text (normalize_text x) = normalize_text x := by
  by_cases hts : tokenize x = []
  · have hx : normalize_text x = [] := by
      simp only [normalize_text]
      rw [if_pos hts]
    rw [hx]
    decide
  · have hx := normalize_text_eq x hts
    have hwf : ∀ t ∈ (tokenize x).filter (fun t =>
        decide (t ∉ (if contains_cyrillic x then RU_STOPWORDS else EN_STOPWORDS))),
        t ≠ [] ∧ ∀ c ∈ t, IsWordChar c ∧ pyLower c = c :=
      fun t ht => tokenize_wf x t (List.mem_of_mem_filter ht)
    by_cases hcl : (tokenize x).filter (fun t =>
        decide (t ∉ (if contains_cyrillic x then RU_STOPWORDS else EN_STOPWORDS))) = []
    · rw [hx, hcl]
      decide
    · have htok2 := tokenize_joinSpace _ hwf
      have hcy2 : contains_cyrillic (joinSpace ((tokenize x).filter (fun t =>
          decide (t ∉ (if contains_cyrillic x then RU_STOPWORDS else EN_STOPWORDS))))) =
          contains_cyrillic x := by
        rw [← hx]; exact h
      have hts2 : tokenize (joinSpace ((tokenize x).filter (fun t =>
          decide (t ∉ (if contains_cyrillic x then RU_STOPWORDS else EN_STOPWORDS))))) ≠ [] := by
        rw [htok2]; exact hcl
      rw [hx, normalize_text_eq _ hts2, htok2, hcy2]
      congr 1
      refine List.filter_eq_self.mpr ?_
      intro a ha
      exact (List.mem_filter.mp ha).2

/-! ### Argmax lemmas -/

theorem argmaxGo_inv (s : List (WithBot ℝ)) :
    ∀ (is : List Nat) (best : Nat), is.Pairwise (· < ·) → (∀ i ∈ is, best ≤ i) →
      (argmaxGo s is best = best ∨ argmaxGo s is best ∈ is) ∧
      s.getD best ⊥ ≤ s.getD (argmaxGo s is best) ⊥ ∧
      (∀ i ∈ is, s.getD i ⊥ ≤ s.getD (argmaxGo s is best) ⊥) ∧
      (argmaxGo s is best ≠ best → s.getD best ⊥ < s.getD (argmaxGo s is best) ⊥) ∧
      (∀ i ∈ is, i < argmaxGo s is best → s.getD i ⊥ < s.getD (argmaxGo s is best) ⊥) := by
  intro is
  induction is with
  | nil =>
      intro best _ _
      refine ⟨Or.inl rfl, le_refl _, ?_, ?_, ?_⟩
      · intro i hi; exact absurd hi (List.not_mem_nil i)
      · intro hne; exact absurd rfl hne
      · intro i hi; exact absurd hi (List.not_mem_nil i)
  | cons i is' ih =>
      intro best hpw hle
      have hpw' : is'.Pairwise (· < ·) := (List.pairwise_cons.mp hpw).2
      have hi_lt : ∀ j ∈ is', i < j := (List.pairwise_cons.mp hpw).1
      have hbest_le_i : best ≤ i := hle i (List.mem_cons_self i is')
      by_cases hc : s.getD best ⊥ < s.getD i ⊥
      · have hstep : argmaxGo s (i :: is') best = argmaxGo s is' i := by
          rw [argmaxGo, if_pos hc]
        obtain ⟨h1, h2, h3, h4, h5⟩ := ih i hpw' (fun j hj => le_of_lt (hi_lt j hj))
        rw [hstep]
        have hrne : argmaxGo s is' i = i ∨ argmaxGo s is' i ∈ is' := h1
        refine ⟨?_, le_of_lt (lt_of_lt_of_le hc h2), ?_, ?_, ?_⟩
        · rcases hrne with h | h
          · rw [h]; exact Or.inr (List.mem_cons_self i is')
          · exact Or.inr (List.mem_cons_of_mem i h)
        · intro j hj
          rcases List.mem_cons.mp hj with rfl | hj
          · exact h2
          · exact h3 j hj
        · intro _; exact lt_of_lt_of_le hc h2
        · intro j hj hjlt
          rcases List.mem_cons.mp hj with rfl | hj
          · exact h4 (by omega)
          · exact h5 j hj hjlt
      · have hstep : argmaxGo s (i :: is') best = argmaxGo s is' best := by
          rw [argmaxGo, if_neg hc]
        have hle' : ∀ j ∈ is', best ≤ j := fun j hj => le_of_lt (lt_of_le_of_lt hbest_le_i (hi_lt j hj))
        obtain ⟨h1, h2, h3, h4, h5⟩ := ih best hpw' hle'
        rw [hstep]
        have hsi_le : s.getD i ⊥ ≤ s.getD best ⊥ := not_lt.mp hc
        refine ⟨?_, h2, ?_, h4, ?_⟩
        · rcases h1 with h | h
          · exact Or.inl h
          · exact Or.inr (List.mem_cons_of_mem i h)
        · intro j hj
          rcases List.mem_cons.mp hj with rfl | hj
          · exact le_trans hsi_le h2
          · exact h3 j hj
        · intro j hj hjlt
          rcases List.mem_cons.mp hj with rfl | hj
          · rcases h1 with h | h
            · omega
            · have : best < argmaxGo s is' best := lt_of_le_of_lt hbest_le_i (hi_lt _ h)
              exact lt_of_le_of_lt hsi_le (h4 (by omega))
          · exact h5 j hj hjlt

/-- The selector used in both the matcher and the evaluator returns an
in-range index attaining the maximum, with all strictly earlier positions
holding strictly smaller scores. -/
theorem argmax_spec (s : List (WithBot ℝ)) (hs : s ≠ []) :
    argmax s < s.length ∧
      (∀ k, k < s.length → s.getD k ⊥ ≤ s.getD (argmax s) ⊥) ∧
      (∀ k, k < argmax s → s.getD k ⊥ < s.getD (argmax s) ⊥) := by
  have hlen : 0 < s.length := List.length_pos.mpr hs
  obtain ⟨h1, _, h3, _, h5⟩ := argmaxGo_inv s (List.range s.length) 0
    (List.pairwise_lt_range s.length) (fun i _ => Nat.zero_le i)
  refine ⟨?_, ?_, ?_⟩
  · rcases h1 with h | h
    · rw [argmax, h]; exact hlen
    · exact List.mem_range.mp h
  · intro k hk
    exact h3 k (List.mem_range.mpr hk)
  · intro k hk
    have hklen : k < s.length := by
      rcases h1 with h | h
      · rw [argmax, h] at hk; omega
      · have := List.mem_range.mp h; rw [argmax] at hk; omega
    exact h5 k (List.mem_range.mpr hklen) hk

theorem le_maxOf {l : List (WithBot ℝ)} {x : WithBot ℝ} (hx : x ∈ l) : x ≤ maxOf l := by
  induction l with
  | nil => exact absurd hx (List.not_mem_nil x)
  | cons a l ih =>
      rcases List.mem_cons.mp hx with rfl | hx
      · exact le_max_left _ _
      · exact le_trans (ih hx) (le_max_right _ _)

theorem maxOf_le {l : List (WithBot ℝ)} {b : WithBot ℝ} (h : ∀ x ∈ l, x ≤ b) :
    maxOf l ≤ b := by
  induction l with
  | nil => exact bot_le
  | cons a l ih =>
      refine max_le (h a (List.mem_cons_self a l)) (ih ?_)
      exact fun x hx => h x (List.mem_cons_of_mem a hx)

/-- On a non-empty list the fold-maximum is attained at the argmax. -/
theorem maxOf_eq_argmax (s : List (WithBot ℝ)) (hs : s ≠ []) :
    maxOf s = s.getD (argmax s) ⊥ := by
  obtain ⟨hlt, hub, _⟩ := argmax_spec s hs
  refine le_antisymm (maxOf_le ?_) (le_maxOf ?_)
  · intro x hx
    rcases List.mem_iff_getElem.mp hx with ⟨i, hi, rfl⟩
    rw [← List.getD_eq_getElem s ⊥ hi]
    exact hub i hi
  · rw [List.getD_eq_getElem s ⊥ hlt]
    exact List.getElem_mem hlt

/-- C4: in both `get_answer_with_source` and `evaluate_method` the ranked
index is `argmax` of the score vector, and `argmax` breaks ties toward the
lowest index: when positions `i < j` both hold the maximum, the selected
index is at most `i`, attains the same value, and every strictly earlier
position holds a strictly smaller score. -/
theorem claim4_argmax_first_tie :
    (∀ (s : List (WithBot ℝ)) (i j : Nat), i < j → j < s.length →
      (∀ k, k < s.length → s.getD k ⊥ ≤ s.getD i ⊥) → s.getD i ⊥ = s.getD j ⊥ →
      argmax s ≤ i ∧ s.getD (argmax s) ⊥ = s.getD i ⊥ ∧
        ∀ k, k < argmax s → s.getD k ⊥ < s.getD i ⊥) ∧
    (∀ (user_text : Text) (p : IndexPayload) (topic_filter : Text) (i : Nat)
      (b : WithBot ℝ), decide_answer user_text p topic_filter = .matched i b →
      i = argmax (filteredScores user_text p topic_filter)) := by
  constructor
  · intro s i j hij hj hub heq
    have hs : s ≠ [] := by
      intro h
      rw [h] at hj
      simp at hj
    obtain ⟨hlt, hub', hfirst⟩ := argmax_spec s hs
    have hi : i < s.length := lt_trans hij hj
    have h1 : s.getD (argmax s) ⊥ ≤ s.getD i ⊥ := hub _ hlt
    have h2 : s.getD i ⊥ ≤ s.getD (argmax s) ⊥ := hub' i hi
    have heqv : s.getD (argmax s) ⊥ = s.getD i ⊥ := le_antisymm h1 h2
    refine ⟨?_, heqv, ?_⟩
    · by_contra hgt
      push_neg at hgt
      have := hfirst i hgt
      rw [heqv] at this
      exact lt_irrefl _ this
    · intro k hk
      have := hfirst k hk
      rw [heqv] at this
      exact this
  · intro user_text p topic_filter i b h
    simp only [decide_answer] at h
    split at h
    · exact absurd h (by simp)
    · split at h
      · exact absurd h (by simp)
      · split at h
        · exact absurd h (by simp)
        · injection h with h1 h2
          exact h1.symm

/-- C4 (witness): with two positions both holding the maximum `1`, the
selector picks index `0`. -/
theorem claim4_argmax_first_tie_witness :
    (0 < 1) ∧ (1 < tieScores.length) ∧
      (∀ k, k < tieScores.length → tieScores.getD k ⊥ ≤ tieScores.getD 0 ⊥) ∧
      tieScores.getD 0 ⊥ = tieScores.getD 1 ⊥ ∧
      (argmax tieScores ≤ 0 ∧ tieScores.getD (argmax tieScores) ⊥ = tieScores.getD 0 ⊥ ∧
        ∀ k, k < argmax tieScores → tieScores.getD k ⊥ < tieScores.getD 0 ⊥) := by
  have hub : ∀ k, k < tieScores.length → tieScores.getD k ⊥ ≤ tieScores.getD 0 ⊥ := by
    intro k hk
    simp only [tieScores, List.length_cons, List.length_nil] at hk
    interval_cases k <;> simp [tieScores]
  have heq : tieScores.getD 0 ⊥ = tieScores.getD 1 ⊥ := by simp [tieScores]
  exact ⟨Nat.zero_lt_one, by simp [tieScores], hub, heq,
    claim4_argmax_first_tie.1 tieScores 0 1 Nat.zero_lt_one (by simp [tieScores]) hub heq⟩

/-! ### BM25 idf sign (C3) -/

/-- Auxiliary to the idf sign analysis: no corpus can give any term a
negative idf, because `df ≤ N` keeps the argument of the logarithm above
`1` thanks to the `+ 1` smoothing. -/
theorem idf_nonneg (docs : List (List Token)) (t : Token) :
    ¬ (build_bm25_index docs).idf t < 0 := by
  by_cases hlen : docs.length = 0
  · rw [build_bm25_index, if_pos hlen]
    simp
  · rw [build_bm25_index, if_neg hlen]
    simp only
    by_cases hdf : dfCount docs t = 0
    · rw [if_pos hdf]; simp
    · rw [if_neg hdf]
      have hle : dfCount docs t ≤ docs.length := List.length_filter_le _ _
      have h1 : (dfCount docs t : ℝ) ≤ (docs.length : ℝ) := Nat.cast_le.mpr hle
      have h2 : (0 : ℝ) < (dfCount docs t : ℝ) + 0.5 := by positivity
      have hA : (0 : ℝ) < (docs.length : ℝ) - (dfCount docs t : ℝ) + 0.5 := by linarith
      have hq := div_pos hA h2
      have := Real.log_pos (by linarith : (1 : ℝ) <
        1 + ((docs.length : ℝ) - (dfCount docs t : ℝ) + 0.5) / ((dfCount docs t : ℝ) + 0.5))
      linarith

/-- C3 (counterexample): in the three-document corpus `c3docs` the term
`"x"` is common to every document (`df = N = 3`, the extremal case in
which the claimed negative idf would have to appear, since the formula is
decreasing in `df`), yet its unclamped idf is not negative — it is
strictly positive, because the `+ 1` smoothing keeps the logarithm's
argument above `1` for every possible `df ≤ N`. -/
theorem claim3_idf_negative_counterexample :
    dfCount c3docs (str "x") = c3docs.length ∧
      ¬ (build_bm25_index c3docs).idf (str "x") < 0 :=
  ⟨by decide, idf_nonneg c3docs (str "x")⟩

/-- C3 (amended): the idf assigned by `build_bm25_index` under
`ln(1 + (N - df + 0.5) / (df + 0.5))` is strictly positive for every term
occurring in the corpus — never negative, even for a term common to all
documents; the negative values of the classic Robertson-Sparck-Jones
formula are ruled out by the `+ 1` smoothing. -/
theorem claim3_idf_positive_amended (doc_tokens : List (List Token)) (t : Token)
    (hdf : 0 < dfCount doc_tokens t) : 0 < (build_bm25_index doc_tokens).idf t := by
  have hle : dfCount doc_tokens t ≤ doc_tokens.length := List.length_filter_le _ _
  have hlen : ¬ doc_tokens.length = 0 := by omega
  rw [build_bm25_index, if_neg hlen]
  simp only
  rw [if_neg (by omega : ¬ dfCount doc_tokens t = 0)]
  apply Real.log_pos
  have h1 : (dfCount doc_tokens t : ℝ) ≤ (doc_tokens.length : ℝ) := Nat.cast_le.mpr hle
  have h2 : (0 : ℝ) < (dfCount doc_tokens t : ℝ) + 0.5 := by positivity
  have hA : (0 : ℝ) < (doc_tokens.length : ℝ) - (dfCount doc_tokens t : ℝ) + 0.5 := by linarith
  have := div_pos hA h2
  linarith

/-- C3 (witness): in a corpus where `"x"` occurs in all three documents
(`df = N = 3`), its idf is still strictly positive. -/
theorem claim3_idf_positive_witness :
    0 < dfCount c3docs (str "x") ∧ 0 < (build_bm25_index c3docs).idf (str "x") :=
  ⟨by decide, claim3_idf_positive_amended c3docs (str "x") (by decide)⟩

/-! ### BM25 scoring (C1) -/

theorem foldl_ite_add {P : Token → Prop} [DecidablePred P] (g : Token → ℝ) :
    ∀ (l : List Token) (a : ℝ),
      l.foldl (fun acc t => if P t then acc + g t else acc) a =
        a + (l.map (fun t => if P t then g t else 0)).sum := by
  intro l
  induction l with
  | nil => intro a; simp
  | cons t l ih =>
      intro a
      by_cases h : P t
      · simp only [List.foldl_cons, if_pos h, List.map_cons, List.sum_cons]
        rw [ih]
        ring
      · simp only [List.foldl_cons, if_neg h, List.map_cons, List.sum_cons]
        rw [ih]
        ring

theorem sum_dedup_eq_sum_toFinset (l : List Token) (f : Token → ℝ) :
    (l.dedup.map f).sum = ∑ t ∈ l.toFinset, f t := by
  have h1 : l.dedup.toFinset.sum f = (l.dedup.map f).sum :=
    List.sum_toFinset f (List.nodup_dedup l)
  have h2 : l.dedup.toFinset = l.toFinset := by
    ext a
    simp [List.mem_toFinset, List.mem_dedup]
  rw [← h1, h2]

theorem zip_self_map_length (docs : List (List Token)) :
    docs.zip (docs.map List.length) = docs.map (fun d => (d, d.length)) := by
  induction docs with
  | nil => rfl
  | cons d ds ih => simp [ih]

/-- `score_bm25` over a freshly built index, with all the index fields
expanded, in the non-degenerate case. -/
theorem score_bm25_build_eq (docs : List (List Token)) (q : List Token)
    (hdocs : docs ≠ []) (hq : q ≠ [])
    (havg : ((docs.map List.length).sum : ℝ) / (docs.length : ℝ) ≠ 0) :
    score_bm25 q (build_bm25_index docs) = docs.map (fun d =>
      q.dedup.foldl (fun score t =>
        if t ∈ d then
          score + (if dfCount docs t = 0 then 0 else
              Real.log (1 + ((docs.length : ℝ) - (dfCount docs t : ℝ) + 0.5) /
                ((dfCount docs t : ℝ) + 0.5))) *
            (((d.count t : ℝ) * ((1.5 : ℝ) + 1)) /
              ((d.count t : ℝ) + 1.5 * (1 - 0.75 + 0.75 * ((d.length : ℝ) /
                (((docs.map List.length).sum : ℝ) / (docs.length : ℝ)))))) *
            (q.count t : ℝ)
        else score) 0) := by
  have hlen0 : ¬ docs.length = 0 := fun h => hdocs (List.length_eq_zero.mp h)
  rw [build_bm25_index, if_neg hlen0, score_bm25]
  simp only [if_neg hq, if_neg havg, zip_self_map_length, List.map_map]
  rfl

/-- C1: over any non-empty corpus and non-empty query, `score_bm25` on the
index built by `build_bm25_index` returns one score per document, equal to
the sum over distinct query terms occurring in that document of
`idf(t) * (tf*(k1+1)) / (tf + k1*(1-b+b*(docLen/avgDocLen))) * queryCount(t)`
with `idf(t) = ln(1 + (N - df + 0.5)/(df + 0.5))`, `k1 = 1.5`, `b = 0.75`;
absent terms contribute `0`. -/
theorem claim1_bm25_score_formula (docs : List (List Token)) (q : List Token)
    (hdocs : docs ≠ []) (hq : q ≠ []) :
    (score_bm25 q (build_bm25_index docs)).length = docs.length ∧
    ∀ i, i < docs.length →
      (score_bm25 q (build_bm25_index docs)).getD i 0 =
        ∑ t ∈ q.toFinset,
          (if t ∈ docs.getD i [] then
            Real.log (1 + ((docs.length : ℝ) - (dfCount docs t : ℝ) + 0.5) /
              ((dfCount docs t : ℝ) + 0.5)) *
              (((docs.getD i []).count t : ℝ) * ((1.5 : ℝ) + 1)) /
              (((docs.getD i []).count t : ℝ) + 1.5 * (1 - 0.75 + 0.75 *
                (((docs.getD i []).length : ℝ) /
                  (((docs.map List.length).sum : ℝ) / (docs.length : ℝ))))) *
              (q.count t : ℝ)
          else 0) := by
  have hlen0 : ¬ docs.length = 0 := fun h => hdocs (List.length_eq_zero.mp h)
  by_cases havg : ((docs.map List.length).sum : ℝ) / (docs.length : ℝ) = 0
  · -- degenerate corpus of empty documents: both sides are zero
    have hS : (docs.map List.length).sum = 0 := by
      rcases div_eq_zero_iff.mp havg with h | h
      · exact_mod_cast h
      · exact absurd (Nat.cast_eq_zero.mp h) hlen0
    have hdocnil : ∀ i, i < docs.length → docs.getD i [] = [] := by
      intro i hi
      have hmem : (docs.getD i []).length ∈ docs.map List.length := by
        rw [List.getD_eq_getElem _ _ hi]
        exact List.mem_map_of_mem List.length (List.getElem_mem hi)
      have := List.sum_eq_zero_iff.mp hS _ hmem
      exact List.length_eq_zero.mp this
    have hzeros : score_bm25 q (build_bm25_index docs) = docs.map (fun _ => 0) := by
      rw [build_bm25_index, if_neg hlen0, score_bm25]
      simp only [if_neg hq, if_pos havg]
    rw [hzeros]
    refine ⟨by simp, ?_⟩
    intro i hi
    have hi' : i < (docs.map (fun _ => (0 : ℝ))).length := by simpa using hi
    rw [List.getD_eq_getElem _ _ hi', List.getElem_map]
    rw [Finset.sum_eq_zero]
    intro t _
    rw [if_neg]
    rw [hdocnil i hi]
    exact List.not_mem_nil t
  · rw [score_bm25_build_eq docs q hdocs hq havg]
    refine ⟨by simp, ?_⟩
    intro i hi
    have hi' : i < (docs.map (fun d =>
        q.dedup.foldl (fun score t =>
          if t ∈ d then
            score + (if dfCount docs t = 0 then 0 else
                Real.log (1 + ((docs.length : ℝ) - (dfCount docs t : ℝ) + 0.5) /
                  ((dfCount docs t : ℝ) + 0.5))) *
              (((d.count t : ℝ) * ((1.5 : ℝ) + 1)) /
                ((d.count t : ℝ) + 1.5 * (1 - 0.75 + 0.75 * ((d.length : ℝ) /
                  (((docs.map List.length).sum : ℝ) / (docs.length : ℝ)))))) *
              (q.count t : ℝ)
          else score) 0)).length := by simpa using hi
    rw [List.getD_eq_getElem _ _ hi', List.getElem_map,
      List.getD_eq_getElem _ ([] : List Token) hi]
    rw [foldl_ite_add, zero_add, sum_dedup_eq_sum_toFinset]
    refine Finset.sum_congr rfl ?_
    intro t _
    by_cases hmem : t ∈ docs[i]
    · rw [if_pos hmem, if_pos hmem]
      have hdfne : ¬ dfCount docs t = 0 := by
        have hdoc : docs[i] ∈ docs := List.getElem_mem hi
        have : docs[i] ∈ docs.filter (fun d => decide (t ∈ d)) :=
          List.mem_filter.mpr ⟨hdoc, by simpa using hmem⟩
        have hpos : 0 < dfCount docs t :=
          List.length_pos.mpr (List.ne_nil_of_mem this)
        omega
      rw [if_neg hdfne]
      ring
    · rw [if_neg hmem, if_neg hmem]

/-- C1 (witness): the BM25 formula theorem applies to a concrete
two-document corpus and a three-token query. -/
theorem claim1_bm25_score_formula_witness :
    c1docs ≠ [] ∧ c1query ≠ [] ∧
      ((score_bm25 c1query (build_bm25_index c1docs)).length = c1docs.length ∧
      ∀ i, i < c1docs.length →
        (score_bm25 c1query (build_bm25_index c1docs)).getD i 0 =
          ∑ t ∈ c1query.toFinset,
            (if t ∈ c1docs.getD i [] then
              Real.log (1 + ((c1docs.length : ℝ) - (dfCount c1docs t : ℝ) + 0.5) /
                ((dfCount c1docs t : ℝ) + 0.5)) *
                (((c1docs.getD i []).count t : ℝ) * ((1.5 : ℝ) + 1)) /
                (((c1docs.getD i []).count t : ℝ) + 1.5 * (1 - 0.75 + 0.75 *
                  (((c1docs.getD i []).length : ℝ) /
                    (((c1docs.map List.length).sum : ℝ) / (c1docs.length : ℝ))))) *
                (c1query.count t : ℝ)
            else 0)) :=
  ⟨by decide, by decide, claim1_bm25_score_formula c1docs c1query (by decide) (by decide)⟩

/-! ### Boolean scoring (C7) -/

/-- C7: for a non-empty query, `score_boolean` returns one score per
document, each equal to `|set(query) ∩ set(doc)| / |set(query)|` and lying
in `[0, 1]`; for an empty query it returns a zero score per document. -/
theorem claim7_boolean_scores (query_tokens : List Token) (doc_tokens : List (List Token)) :
    (query_tokens ≠ [] →
      (score_boolean query_tokens doc_tokens).length = doc_tokens.length ∧
      ∀ i, i < doc_tokens.length →
        (score_boolean query_tokens doc_tokens).getD i 0 =
          ((query_tokens.toFinset ∩ (doc_tokens.getD i []).toFinset).card : ℝ) /
            (query_tokens.toFinset.card : ℝ) ∧
        0 ≤ (score_boolean query_tokens doc_tokens).getD i 0 ∧
        (score_boolean query_tokens doc_tokens).getD i 0 ≤ 1) ∧
    (query_tokens = [] →
      (score_boolean query_tokens doc_tokens).length = doc_tokens.length ∧
      ∀ i, (score_boolean query_tokens doc_tokens).getD i 0 = 0) := by
  constructor
  · intro hq
    rw [score_boolean, if_neg hq]
    refine ⟨by simp, ?_⟩
    intro i hi
    have hi' : i < (doc_tokens.map (fun doc =>
        ((query_tokens.toFinset ∩ doc.toFinset).card : ℝ) /
          (query_tokens.toFinset.card : ℝ))).length := by simpa using hi
    rw [List.getD_eq_getElem _ _ hi', List.getElem_map, ← List.getD_eq_getElem _ ([] : List Token) hi]
    obtain ⟨a, ha⟩ := List.exists_mem_of_ne_nil query_tokens hq
    have hqpos : 0 < query_tokens.toFinset.card :=
      Finset.card_pos.mpr ⟨a, List.mem_toFinset.mpr ha⟩
    have hqpos' : (0 : ℝ) < (query_tokens.toFinset.card : ℝ) := by exact_mod_cast hqpos
    refine ⟨rfl, div_nonneg (Nat.cast_nonneg _) (Nat.cast_nonneg _), ?_⟩
    rw [div_le_one hqpos']
    exact_mod_cast Finset.card_le_card (Finset.inter_subset_left)
  · intro hq
    rw [score_boolean, if_pos hq]
    refine ⟨by simp, ?_⟩
    intro i
    rcases lt_or_ge i doc_tokens.length with hi | hi
    · have hi' : i < (doc_tokens.map (fun _ => (0 : ℝ))).length := by simpa using hi
      rw [List.getD_eq_getElem _ _ hi', List.getElem_map]
    · exact List.getD_eq_default _ _ (by simpa using hi)

/-- C7 (witness): the boolean theorem applies to a concrete two-document
corpus and a two-term query. -/
theorem claim7_boolean_scores_witness :
    c7query ≠ [] ∧
      ((score_boolean c7query c7docs).length = c7docs.length ∧
      ∀ i, i < c7docs.length →
        (score_boolean c7query c7docs).getD i 0 =
          ((c7query.toFinset ∩ (c7docs.getD i []).toFinset).card : ℝ) /
            (c7query.toFinset.card : ℝ) ∧
        0 ≤ (score_boolean c7query c7docs).getD i 0 ∧
        (score_boolean c7query c7docs).getD i 0 ≤ 1) :=
  ⟨by decide, (claim7_boolean_scores c7query c7docs).1 (by decide)⟩

/-! ### Alignment (C5) -/

theorem prepare_corpus_inner_go (tag : Text) (responses : List Text) :
    ∀ (patterns : List Text) (acc : List Text × List Example),
      patterns.foldl (fun acc pattern =>
        let normalized := normalize_text pattern
        if normalized = [] then acc
        else (acc.1 ++ [normalized],
              acc.2 ++ [{ tag := tag, pattern := pattern,
                          responses := responses, source_url := [] }])) acc =
      (acc.1 ++ rowCorpus (patterns.map (fun pat => (tag, pat, responses))),
        acc.2 ++ rowExamples (patterns.map (fun pat => (tag, pat, responses)))) := by
  intro patterns
  induction patterns with
  | nil => intro acc; simp [rowCorpus, rowExamples]
  | cons pat pats ih =>
      intro acc
      simp only [List.foldl_cons, List.map_cons]
      by_cases hn : normalize_text pat = []
      · rw [if_pos hn]
        rw [ih acc]
        have h1 : rowCorpus ((tag, pat, responses) :: pats.map (fun p => (tag, p, responses))) =
            rowCorpus (pats.map (fun p => (tag, p, responses))) := by
          simp [rowCorpus, hn]
        have h2 : rowExamples ((tag, pat, responses) :: pats.map (fun p => (tag, p, responses))) =
            rowExamples (pats.map (fun p => (tag, p, responses))) := by
          simp [rowExamples, hn]
        rw [h1, h2]
      · rw [if_neg hn]
        rw [ih]
        have hne : (normalize_text pat).isEmpty = false := by
          cases hcase : normalize_text pat
          · exact absurd hcase hn
          · rfl
        have h1 : rowCorpus ((tag, pat, responses) :: pats.map (fun p => (tag, p, responses))) =
            normalize_text pat :: rowCorpus (pats.map (fun p => (tag, p, responses))) := by
          simp [rowCorpus, hne]
        have h2 : rowExamples ((tag, pat, responses) :: pats.map (fun p => (tag, p, responses))) =
            { tag := tag, pattern := pat, responses := responses, source_url := [] } ::
              rowExamples (pats.map (fun p => (tag, p, responses))) := by
          simp [rowExamples, hne]
        rw [h1, h2]
        simp

theorem prepare_corpus_go :
    ∀ (intents : List Intent) (acc : List Text × List Example),
      intents.foldl (fun acc intent =>
        intent.patterns.foldl (fun acc pattern =>
          let normalized := normalize_text pattern
          if normalized = [] then acc
          else (acc.1 ++ [normalized],
                acc.2 ++ [{ tag := intent.tag, pattern := pattern,
                            responses := intent.responses, source_url := [] }])) acc) acc =
      (acc.1 ++ rowCorpus (intentRows intents), acc.2 ++ rowExamples (intentRows intents)) := by
  intro intents
  induction intents with
  | nil => intro acc; simp [intentRows, rowCorpus, rowExamples]
  | cons it its ih =>
      intro acc
      simp only [List.foldl_cons]
      rw [prepare_corpus_inner_go it.tag it.responses it.patterns acc, ih]
      have hrows : intentRows (it :: its) =
          it.patterns.map (fun pat => (it.tag, pat, it.responses)) ++ intentRows its := by
        simp [intentRows]
      rw [hrows]
      have h1 : rowCorpus (it.patterns.map (fun pat => (it.tag, pat, it.responses)) ++
          intentRows its) = rowCorpus (it.patterns.map (fun pat => (it.tag, pat, it.responses))) ++
          rowCorpus (intentRows its) := by
        simp [rowCorpus]
      have h2 : rowExamples (it.patterns.map (fun pat => (it.tag, pat, it.responses)) ++
          intentRows its) = rowExamples (it.patterns.map (fun pat => (it.tag, pat, it.responses))) ++
          rowExamples (intentRows its) := by
        simp [rowExamples]
      rw [h1, h2]
      simp

/-- Shared length fact: scoring an aligned payload yields one score per
example, whatever the method. -/
theorem compute_scores_length (p : IndexPayload) (q : Text)
    (halign : DataAligned p.data p.examples.length) :
    (compute_scores q p).length = p.examples.length := by
  obtain ⟨examples, threshold, data⟩ := p
  cases data with
  | vector vectorizer matrix =>
      simp only [compute_scores, cosine_similarity, List.length_map]
      exact halign
  | bm25 idx =>
      obtain ⟨h1, h2⟩ := halign
      simp only [compute_scores]
      rw [score_bm25]
      split_ifs <;> simp [h1, h2, List.length_zip]
  | boolean docTokens =>
      have halign' : docTokens.length = examples.length := halign
      simp only [compute_scores]
      rw [score_boolean]
      split_ifs <;> simp [halign']

/-- C5: `compute_scores` returns one score per example whenever the
method-specific structures hold one entry per example; `prepare_corpus`
produces corpus and examples of equal length, appending to both together
and dropping a pattern from both exactly when its normalization is empty. -/
theorem claim5_alignment :
    (∀ (p : IndexPayload) (q : Text), DataAligned p.data p.examples.length →
      (compute_scores q p).length = p.examples.length) ∧
    (∀ intents : List Intent,
      (prepare_corpus intents).1.length = (prepare_corpus intents).2.length ∧
      (prepare_corpus intents).1 = rowCorpus (intentRows intents) ∧
      (prepare_corpus intents).2 = rowExamples (intentRows intents)) := by
  constructor
  · exact compute_scores_length
  · intro intents
    have hgo := prepare_corpus_go intents ([], [])
    have hc : (prepare_corpus intents).1 = rowCorpus (intentRows intents) := by
      rw [prepare_corpus, hgo]
      simp
    have he : (prepare_corpus intents).2 = rowExamples (intentRows intents) := by
      rw [prepare_corpus, hgo]
      simp
    refine ⟨?_, hc, he⟩
    rw [hc, he]
    rw [rowCorpus, rowExamples, List.filter_map, List.length_map, List.length_map]
    rfl

/-- C5 (witness): the alignment theorem applies to a concrete two-example
boolean payload. -/
theorem claim5_alignment_witness :
    DataAligned c5payload.data c5payload.examples.length ∧
      (compute_scores (str "hello") c5payload).length = c5payload.examples.length :=
  ⟨by decide, claim5_alignment.1 c5payload (str "hello") (by decide)⟩

/-- C2 (witness): the amended idempotence applies to the concrete English
query text `"How do I reset my password?"`. -/
theorem claim2_normalize_idempotent_witness :
    contains_cyrillic (normalize_text (str "How do I reset my password?")) =
        contains_cyrillic (str "How do I reset my password?") ∧
      normalize_text (normalize_text (str "How do I reset my password?")) =
        normalize_text (str "How do I reset my password?") :=
  ⟨by decide, claim2_normalize_idempotent_amended _ (by decide)⟩

/-! ### Matcher: topic filtering and threshold fallback (C6, C8) -/

theorem filteredScores_length (user_text : Text) (p : IndexPayload) (topic_filter : Text) :
    (filteredScores user_text p topic_filter).length =
      (compute_scores (normalize_text user_text) p).length := by
  rw [filteredScores]
  split_ifs
  · rw [List.length_map]
  · rw [maskScores, List.length_mapIdx]

/-- C6: with a non-sentinel topic filter over an aligned payload, a
matched result always points at an example whose normalized topic equals
the filter (the mask overwrites all other positions with `-inf` after
scoring), and if every masked position is `-inf` the fallback triple is
returned. -/
theorem claim6_topic_filter_sound (p : IndexPayload) (user_text topic_filter : Text)
    (hfil : topic_filter ≠ str "all")
    (halign : DataAligned p.data p.examples.length) :
    (∀ i b, decide_answer user_text p topic_filter = .matched i b →
      i < p.examples.length ∧
      normalized_topic (p.examples.getD i default).tag = topic_filter) ∧
    ((∀ x ∈ filteredScores user_text p topic_filter, x = ⊥) →
      ∀ pick, get_answer_with_source pick user_text p topic_filter =
        (FALLBACK_MESSAGE, ((0 : ℝ) : WithBot ℝ), ([] : Text))) := by
  constructor
  · intro i b h
    simp only [decide_answer] at h
    split at h
    · exact absurd h (by simp)
    · split at h
      · exact absurd h (by simp)
      · next hcond =>
          split at h
          · exact absurd h (by simp)
          · injection h with h1 h2
            subst h1
            push_neg at hcond
            obtain ⟨hne, hmax⟩ := hcond
            obtain ⟨hlt, hub, _⟩ := argmax_spec _ hne
            have hlen : (filteredScores user_text p topic_filter).length =
                p.examples.length := by
              rw [filteredScores_length, compute_scores_length p _ halign]
            refine ⟨hlen ▸ hlt, ?_⟩
            have hval : (filteredScores user_text p topic_filter).getD
                (argmax (filteredScores user_text p topic_filter)) ⊥ ≠ ⊥ := by
              rw [← maxOf_eq_argmax _ hne]
              exact hmax
            have hfs : filteredScores user_text p topic_filter =
                maskScores p.examples (compute_scores (normalize_text user_text) p)
                  topic_filter := by
              rw [filteredScores, if_neg hfil]
            have hlt' : argmax (filteredScores user_text p topic_filter) <
                (compute_scores (normalize_text user_text) p).length := by
              rw [← filteredScores_length user_text p topic_filter]
              exact hlt
            set m := argmax (filteredScores user_text p topic_filter) with hm
            have hgetd : (filteredScores user_text p topic_filter).getD m ⊥ =
                (if normalized_topic ((p.examples.getD m default).tag) ≠ topic_filter
                  then (⊥ : WithBot ℝ)
                  else (((compute_scores (normalize_text user_text) p).getD m 0 : ℝ) :
                    WithBot ℝ)) := by
              rw [hfs]
              have hlt2 : m < (maskScores p.examples
                  (compute_scores (normalize_text user_text) p) topic_filter).length := by
                rw [← hfs]
                exact hlt
              rw [List.getD_eq_getElem _ _ hlt2]
              simp only [maskScores, List.getElem_mapIdx]
              rw [List.getD_eq_getElem _ _ hlt']
            rw [hgetd] at hval
            by_contra hne_topic
            rw [if_pos hne_topic] at hval
            exact hval rfl
  · intro hall pick
    by_cases hnorm : normalize_text user_text = []
    · have hdec : decide_answer user_text p topic_filter = .emptyQuery := by
        simp only [decide_answer]
        rw [if_pos hnorm]
      rw [get_answer_with_source, hdec]
    · have hmax : maxOf (filteredScores user_text p topic_filter) = ⊥ :=
        le_bot_iff.mp (maxOf_le (fun x hx => le_of_eq (hall x hx)))
      have hdec : decide_answer user_text p topic_filter = .noScores := by
        simp only [decide_answer]
        rw [if_neg hnorm, if_pos (Or.inr hmax)]
      rw [get_answer_with_source, hdec]

theorem argmax_singleton (x : WithBot ℝ) : argmax [x] = 0 := by
  have h1 : List.range 1 = [0] := by
    rw [List.range_succ, List.range_zero, List.nil_append]
  rw [argmax]
  show argmaxGo [x] (List.range 1) 0 = 0
  rw [h1, argmaxGo, if_neg (lt_irrefl _)]
  rfl

/-- C8: whenever the query normalizes to something non-empty, the score
vector is non-empty with a finite maximum, and the best (argmax) score is
strictly below the threshold, `get_answer_with_source` returns the fixed
fallback message, the real best score, and an empty source URL. -/
theorem claim8_below_threshold_fallback (pick : List Text → Text)
    (user_text : Text) (p : IndexPayload) (topic_filter : Text)
    (hnorm : normalize_text user_text ≠ [])
    (hne : filteredScores user_text p topic_filter ≠ [])
    (hmax : maxOf (filteredScores user_text p topic_filter) ≠ ⊥)
    (hlt : (filteredScores user_text p topic_filter).getD
        (argmax (filteredScores user_text p topic_filter)) ⊥ <
        ((thresholdOf p : ℝ) : WithBot ℝ)) :
    get_answer_with_source pick user_text p topic_filter =
      (FALLBACK_MESSAGE,
        (filteredScores user_text p topic_filter).getD
          (argmax (filteredScores user_text p topic_filter)) ⊥, ([] : Text)) := by
  have hdec : decide_answer user_text p topic_filter =
      .belowThreshold ((filteredScores user_text p topic_filter).getD
        (argmax (filteredScores user_text p topic_filter)) ⊥) := by
    simp only [decide_answer]
    rw [if_neg hnorm, if_neg (not_or.mpr ⟨hne, hmax⟩), if_pos hlt]
  rw [get_answer_with_source, hdec]

/-! ### Matcher and evaluator witnesses, evaluator (C9), default threshold (C10) -/

/-- C6 (witness): the topic-filter theorem applies to a concrete
two-example payload with the filter `"account"`. -/
theorem claim6_topic_filter_sound_witness :
    str "account" ≠ str "all" ∧
    DataAligned c6payload.data c6payload.examples.length ∧
    ((∀ i b, decide_answer (str "reset password") c6payload (str "account") = .matched i b →
        i < c6payload.examples.length ∧
        normalized_topic (c6payload.examples.getD i default).tag = str "account") ∧
      ((∀ x ∈ filteredScores (str "reset password") c6payload (str "account"), x = ⊥) →
        ∀ pick, get_answer_with_source pick (str "reset password") c6payload (str "account") =
          (FALLBACK_MESSAGE, ((0 : ℝ) : WithBot ℝ), ([] : Text)))) :=
  ⟨by decide, by decide,
    claim6_topic_filter_sound c6payload (str "reset password") (str "account")
      (by decide) (by decide)⟩

theorem c8_filteredScores_eq :
    filteredScores (str "cat bird") c8payload (str "all") =
      [(((1 : ℝ) / 2 : ℝ) : WithBot ℝ)] := by
  simp only [filteredScores]
  rw [if_pos trivial]
  simp only [compute_scores, c8payload]
  rw [show pySplit (normalize_text (str "cat bird")) = [str "cat", str "bird"] from by decide]
  rw [score_boolean, if_neg (by decide)]
  simp only [List.map_cons, List.map_nil]
  rw [show (([str "cat", str "bird"] : List Token).toFinset ∩
      ([str "cat", str "dog"] : List Token).toFinset).card = 1 from by decide]
  rw [show ([str "cat", str "bird"] : List Token).toFinset.card = 2 from by decide]
  norm_num

/-- C8 (witness): a one-example boolean payload with threshold `1` and a
query overlapping half the stored pattern falls back while reporting the
real best score `1/2`. -/
theorem claim8_below_threshold_fallback_witness :
    normalize_text (str "cat bird") ≠ [] ∧
    filteredScores (str "cat bird") c8payload (str "all") ≠ [] ∧
    maxOf (filteredScores (str "cat bird") c8payload (str "all")) ≠ ⊥ ∧
    (filteredScores (str "cat bird") c8payload (str "all")).getD
      (argmax (filteredScores (str "cat bird") c8payload (str "all"))) ⊥ <
      ((thresholdOf c8payload : ℝ) : WithBot ℝ) ∧
    get_answer_with_source (fun rs => rs.headD []) (str "cat bird") c8payload (str "all") =
      (FALLBACK_MESSAGE,
        (filteredScores (str "cat bird") c8payload (str "all")).getD
          (argmax (filteredScores (str "cat bird") c8payload (str "all"))) ⊥, ([] : Text)) := by
  have h2 : filteredScores (str "cat bird") c8payload (str "all") ≠ [] := by
    rw [c8_filteredScores_eq]
    simp
  have h3 : maxOf (filteredScores (str "cat bird") c8payload (str "all")) ≠ ⊥ := by
    rw [c8_filteredScores_eq]
    simp [maxOf]
  have h4 : (filteredScores (str "cat bird") c8payload (str "all")).getD
      (argmax (filteredScores (str "cat bird") c8payload (str "all"))) ⊥ <
      ((thresholdOf c8payload : ℝ) : WithBot ℝ) := by
    rw [c8_filteredScores_eq, argmax_singleton]
    show (((1 : ℝ) / 2 : ℝ) : WithBot ℝ) < (((1 : ℝ) : ℝ) : WithBot ℝ)
    rw [WithBot.coe_lt_coe]
    norm_num
  exact ⟨by decide, h2, h3, h4,
    claim8_below_threshold_fallback (fun rs => rs.headD []) (str "cat bird") c8payload
      (str "all") (by decide) h2 h3 h4⟩

/-! ### Evaluator (C9) -/

theorem evalStep_fst (p : IndexPayload) (acc : Nat × Nat × Nat) (ie : Nat × Example) :
    (evalStep p acc ie).1 = acc.1 +
      (if normalize_text ie.2.pattern = [] then 0 else
        if (compute_scores (normalize_text ie.2.pattern) p).length = 0 then 0 else 1) := by
  simp only [evalStep]
  by_cases h1 : normalize_text ie.2.pattern = []
  · simp only [if_pos h1]
    simp
  · simp only [if_neg h1]
    by_cases h2 : compute_scores (normalize_text ie.2.pattern) p = []
    · have hl : (compute_scores (normalize_text ie.2.pattern) p).length = 0 := by
        rw [h2]
        rfl
      simp only [if_pos h2, if_pos hl]
      simp
    · have hl : ¬ (compute_scores (normalize_text ie.2.pattern) p).length = 0 :=
        fun hc => h2 (List.length_eq_zero.mp hc)
      simp only [if_neg h2, if_neg hl]
      split_ifs <;> simp

theorem evalFold_total (p : IndexPayload) :
    ∀ (l : List (Nat × Example)) (acc : Nat × Nat × Nat),
      (l.foldl (evalStep p) acc).1 = acc.1 + (l.map (fun ie =>
        if normalize_text ie.2.pattern = [] then 0 else
        if (compute_scores (normalize_text ie.2.pattern) p).length = 0 then 0 else 1)).sum := by
  intro l
  induction l with
  | nil => intro acc; simp
  | cons ie l ih =>
      intro acc
      rw [List.foldl_cons, ih, evalStep_fst]
      simp only [List.map_cons, List.sum_cons]
      omega

/-- C9: the evaluator counts exactly the examples with a non-empty
normalized pattern and non-empty score vector (empty patterns are skipped,
contributing nothing to any counter), and over an aligned one-example
payload the self-exclusion forces the only score to `-inf`, so every
attempted query falls back: `correct = 0` and `fallbacks = total`, with
`total = 1` when the single pattern normalizes non-empty. -/
theorem claim9_evaluate_leave_one_out :
    (∀ p : IndexPayload, (evaluate_method p).total = (p.examples.map (fun e =>
      if normalize_text e.pattern = [] then 0 else
      if (compute_scores (normalize_text e.pattern) p).length = 0 then 0 else 1)).sum) ∧
    (∀ (p : IndexPayload) (e : Example), p.examples = [e] → DataAligned p.data 1 →
      (evaluate_method p).correct = 0 ∧
      (evaluate_method p).fallbacks = (evaluate_method p).total ∧
      (normalize_text e.pattern ≠ [] → (evaluate_method p).total = 1)) := by
  constructor
  · intro p
    simp only [evaluate_method]
    rw [evalFold_total]
    have hmap : p.examples.enum.map (fun ie : Nat × Example =>
        if normalize_text ie.2.pattern = [] then 0 else
        if (compute_scores (normalize_text ie.2.pattern) p).length = 0 then 0 else 1) =
        p.examples.map (fun e =>
        if normalize_text e.pattern = [] then 0 else
        if (compute_scores (normalize_text e.pattern) p).length = 0 then 0 else 1) := by
      rw [show (fun ie : Nat × Example =>
        if normalize_text ie.2.pattern = [] then (0 : Nat) else
        if (compute_scores (normalize_text ie.2.pattern) p).length = 0 then 0 else 1) =
        (fun e : Example =>
        if normalize_text e.pattern = [] then (0 : Nat) else
        if (compute_scores (normalize_text e.pattern) p).length = 0 then 0 else 1) ∘
          Prod.snd from rfl]
      rw [← List.map_map, List.enum_map_snd]
    rw [hmap]
    simp
  · intro p e hex halign
    have halign' : DataAligned p.data p.examples.length := by
      rw [hex]
      exact halign
    have hr : p.examples.enum.foldl (evalStep p) (0, 0, 0) = evalStep p (0, 0, 0) (0, e) := by
      rw [hex]
      rfl
    by_cases hn : normalize_text e.pattern = []
    · have hstep : evalStep p (0, 0, 0) (0, e) = (0, 0, 0) := by
        simp only [evalStep]
        rw [if_pos hn]
      have heval : evaluate_method p = { total := 0, correct := 0, fallbacks := 0 } := by
        simp only [evaluate_method, hr, hstep]
      rw [heval]
      exact ⟨rfl, rfl, fun hne => absurd hn hne⟩
    · have hlen : (compute_scores (normalize_text e.pattern) p).length = 1 := by
        rw [compute_scores_length p _ halign', hex]
        rfl
      obtain ⟨x, hx⟩ := List.length_eq_one.mp hlen
      have hsne : compute_scores (normalize_text e.pattern) p ≠ [] := by
        rw [hx]
        simp
      have hmask : ((compute_scores (normalize_text e.pattern) p).map
          (fun x : ℝ => (x : WithBot ℝ))).set 0 ⊥ = [(⊥ : WithBot ℝ)] := by
        rw [hx]
        rfl
      have hstep : evalStep p (0, 0, 0) (0, e) = (1, 0, 1) := by
        simp only [evalStep]
        rw [if_neg hn, if_neg hsne, hmask, argmax_singleton]
        rw [if_pos (by
          show (⊥ : WithBot ℝ) < ((thresholdOf p : ℝ) : WithBot ℝ)
          exact WithBot.bot_lt_coe _)]
      have heval : evaluate_method p = { total := 1, correct := 0, fallbacks := 1 } := by
        simp only [evaluate_method, hr, hstep]
      rw [heval]
      exact ⟨rfl, rfl, fun _ => rfl⟩

/-- C9 (witness): the one-example conclusion applies to a concrete aligned
boolean payload. -/
theorem claim9_evaluate_leave_one_out_witness :
    c9payload.examples = [c9example] ∧
    DataAligned c9payload.data 1 ∧
    ((evaluate_method c9payload).correct = 0 ∧
      (evaluate_method c9payload).fallbacks = (evaluate_method c9payload).total ∧
      (normalize_text c9example.pattern ≠ [] → (evaluate_method c9payload).total = 1)) :=
  ⟨rfl, by decide,
    claim9_evaluate_leave_one_out.2 c9payload c9example rfl (by decide)⟩

/-! ### Default threshold (C10) -/

/-- C10: a payload with no `threshold` entry behaves exactly like one with
`threshold = 0.25`, in both `get_answer_with_source` and
`evaluate_method` (`payload.get("threshold", 0.25)` in both call sites). -/
theorem claim10_default_threshold (pick : List Text → Text)
    (user_text topic_filter : Text) (examples : List Example) (data : MethodData) :
    get_answer_with_source pick user_text
        { examples := examples, threshold := none, data := data } topic_filter =
      get_answer_with_source pick user_text
        { examples := examples, threshold := some 0.25, data := data } topic_filter ∧
    evaluate_method { examples := examples, threshold := none, data := data } =
      evaluate_method { examples := examples, threshold := some 0.25, data := data } := by
  constructor <;> rfl

end Faq
